import Mathlib

/-!
Verification of the gunaha dictionary search engine.

Shallow embedding of the lexical-resolution and search-result assembly code:
  * apps/gunaha/orthography.py        (to_search_form, normalize_orthography)
  * apps/morphodict/models.py         (Wordform, Definition, EnglishKeyword,
                                       CreeResult, EnglishResult, SearchResult,
                                       fetch_lemma_by_user_query, search,
                                       sort_search_result, save)
  * apps/morphodict/apps.py           (initialize_affix_search)

Python strings are embedded as lists of Unicode codepoints (`Str`).  The
Unicode operations (str.lower, str.strip, NFC, NFKD) are embedded with
explicit finite tables that are faithful on the alphabet the program works
with (ASCII, the Tsuut'ina letters, their diacritics and the apostrophes);
theorems quantifying over strings restrict to that alphabet where the
Unicode tables matter.  The Django store is embedded as explicit lists; a
Django `FieldError` (raised when a query names a field that does not exist
on the model) is embedded as `Except.error`.
-/

/-- Embedded Python string: a list of Unicode codepoints. -/
abbrev Str := List Char

def ofStr (s : String) : Str := s.toList

/- Named codepoints used by the program (written with `Char.ofNat` so that
   this source file cannot be silently renormalized by an editor). -/

def cSpace : Char := Char.ofNat 0x20

def cTab : Char := Char.ofNat 0x9

def cNL : Char := Char.ofNat 0xA

def cCR : Char := Char.ofNat 0xD

def cVT : Char := Char.ofNat 0xB

def cFF : Char := Char.ofNat 0xC

/-- APOSTROPHE `'` (U+0027). -/
def cApos : Char := Char.ofNat 0x27

/-- RIGHT SINGLE QUOTATION MARK (U+2019). -/
def cRApos : Char := Char.ofNat 0x2019

/-- LATIN SMALL LETTER L WITH STROKE (U+0142). -/
def cLstroke : Char := Char.ofNat 0x142

/-- LATIN SMALL LETTER L WITH MIDDLE TILDE (U+026B). -/
def cMtildeL : Char := Char.ofNat 0x26B

/-- COMBINING GRAVE ACCENT (U+0300). -/
def cComb300 : Char := Char.ofNat 0x300

/-- COMBINING ACUTE ACCENT (U+0301). -/
def cComb301 : Char := Char.ofNat 0x301

/-- COMBINING CIRCUMFLEX ACCENT (U+0302). -/
def cComb302 : Char := Char.ofNat 0x302

/-- COMBINING MACRON (U+0304). -/
def cComb304 : Char := Char.ofNat 0x304

def cAacute : Char := Char.ofNat 0xE1

def cAgrave : Char := Char.ofNat 0xE0

def cAcirc : Char := Char.ofNat 0xE2

def cAmacron : Char := Char.ofNat 0x101

def cEacute : Char := Char.ofNat 0xE9

def cEgrave : Char := Char.ofNat 0xE8

def cEcirc : Char := Char.ofNat 0xEA

def cEmacron : Char := Char.ofNat 0x113

def cIacute : Char := Char.ofNat 0xED

def cIgrave : Char := Char.ofNat 0xEC

def cIcirc : Char := Char.ofNat 0xEE

def cImacron : Char := Char.ofNat 0x12B

def cOacute : Char := Char.ofNat 0xF3

def cOgrave : Char := Char.ofNat 0xF2

def cOcirc : Char := Char.ofNat 0xF4

def cOmacron : Char := Char.ofNat 0x14D

def cUacute : Char := Char.ofNat 0xFA

def cUgrave : Char := Char.ofNat 0xF9

def cUcirc : Char := Char.ofNat 0xFB

def cUmacron : Char := Char.ofNat 0x16B

/- ------------------------------------------------------------------ -/
/- Python string primitives (str.lower, str.strip, NFC, NFKD)          -/
/- ------------------------------------------------------------------ -/

/-- Python `str.lower`, restricted to the modeled alphabet: the ASCII
uppercase range is mapped down; every other modeled character is already
lowercase and is fixed.  (Characters outside the modeled alphabet are left
unchanged; theorems only quantify over the modeled alphabet.) -/
def charLower (c : Char) : Char :=
  if 0x41 ≤ c.toNat ∧ c.toNat ≤ 0x5A then Char.ofNat (c.toNat + 32) else c

def pyLower (s : Str) : Str := s.map charLower

/-- Python whitespace recognised by `str.strip` (the modeled subset). -/
def isPyWs (c : Char) : Bool :=
  c == cSpace || c == cTab || c == cNL || c == cCR || c == cVT || c == cFF

/-- Python `str.strip()`: drop leading and trailing whitespace. -/
def pyStrip (s : Str) : Str :=
  ((s.dropWhile isPyWs).reverse.dropWhile isPyWs).reverse

/- Canonical composition pairs (UnicodeData.txt) for the vowels used by the
   program: base vowel + combining grave/acute/circumflex/macron. -/

def composeGrave (c : Char) : Option Char :=
  if c == 'a' then some cAgrave else if c == 'e' then some cEgrave
  else if c == 'i' then some cIgrave else if c == 'o' then some cOgrave
  else if c == 'u' then some cUgrave else none

def composeAcute (c : Char) : Option Char :=
  if c == 'a' then some cAacute else if c == 'e' then some cEacute
  else if c == 'i' then some cIacute else if c == 'o' then some cOacute
  else if c == 'u' then some cUacute else none

def composeCirc (c : Char) : Option Char :=
  if c == 'a' then some cAcirc else if c == 'e' then some cEcirc
  else if c == 'i' then some cIcirc else if c == 'o' then some cOcirc
  else if c == 'u' then some cUcirc else none

def composeMacron (c : Char) : Option Char :=
  if c == 'a' then some cAmacron else if c == 'e' then some cEmacron
  else if c == 'i' then some cImacron else if c == 'o' then some cOmacron
  else if c == 'u' then some cUmacron else none

def composePair (c d : Char) : Option Char :=
  if d == cComb300 then composeGrave c
  else if d == cComb301 then composeAcute c
  else if d == cComb302 then composeCirc c
  else if d == cComb304 then composeMacron c
  else none

/-- One pass of canonical composition: `c` is the pending starter; a
following combining mark that forms a primary composite with it is
composed. -/
def nfcGo (c : Char) : Str → Str
  | [] => [c]
  | d :: rest =>
    match composePair c d with
    | some e => nfcGo e rest
    | none => c :: nfcGo d rest

/-- Unicode NFC (canonical composition), faithful on the modeled alphabet:
strings whose combining marks each directly follow their base vowel. -/
def pyNFC : Str → Str
  | [] => []
  | c :: rest => nfcGo c rest

/-- Canonical/compatibility decomposition of one modeled character
(UnicodeData.txt); the vowels with grave/acute/circumflex/macron decompose
into base + combining mark, every other modeled character is stable. -/
def charNFKD (c : Char) : Str :=
  if c == cAgrave then ['a', cComb300] else if c == cAacute then ['a', cComb301]
  else if c == cAcirc then ['a', cComb302] else if c == cAmacron then ['a', cComb304]
  else if c == cEgrave then ['e', cComb300] else if c == cEacute then ['e', cComb301]
  else if c == cEcirc then ['e', cComb302] else if c == cEmacron then ['e', cComb304]
  else if c == cIgrave then ['i', cComb300] else if c == cIacute then ['i', cComb301]
  else if c == cIcirc then ['i', cComb302] else if c == cImacron then ['i', cComb304]
  else if c == cOgrave then ['o', cComb300] else if c == cOacute then ['o', cComb301]
  else if c == cOcirc then ['o', cComb302] else if c == cOmacron then ['o', cComb304]
  else if c == cUgrave then ['u', cComb300] else if c == cUacute then ['u', cComb301]
  else if c == cUcirc then ['u', cComb302] else if c == cUmacron then ['u', cComb304]
  else [c]

/-- `concatMap` written out so that all proofs are plain structural
inductions. -/
def concatMap (h : α → List β) : List α → List β
  | [] => []
  | c :: cs => h c ++ concatMap h cs

def pyNFKD (s : Str) : Str := concatMap charNFKD s

/- ------------------------------------------------------------------ -/
/- apps/gunaha/orthography.py                                          -/
/- ------------------------------------------------------------------ -/

/-- The replace U+026B → U+0142 of `normalize_orthography`, per
character. -/
def lsub (c : Char) : Char := if c == cMtildeL then cLstroke else c

/-- `normalize_orthography`: strip, NFC, then fold U+026B into U+0142. -/
def normalize_orthography (w : Str) : Str :=
  (pyNFC (pyStrip w)).map lsub

/-- The chained `str.replace` calls of `to_search_form`, per character:
drop both apostrophes and the combining grave/acute/macron, fold U+0142 to
plain `l`.  (The replaced strings are pairwise disjoint single characters,
so the sequential replaces are a single character-wise pass.) -/
def remChar (c : Char) : Str :=
  if c == cApos || c == cRApos || c == cComb300 || c == cComb301 || c == cComb304
  then []
  else if c == cLstroke then ['l'] else [c]

/-- `to_search_form`: lowercase, normalize orthography, NFKD, then the
replaces. -/
def to_search_form (q : Str) : Str :=
  concatMap remChar (pyNFKD (normalize_orthography (pyLower q)))

/- ------------------------------------------------------------------ -/
/- apps/morphodict/models.py : data model                              -/
/- ------------------------------------------------------------------ -/

/-- The `Wordform` model.  `lemma_id` embeds the self-referential
foreign key `lemma` (stored as the target id); it is declared without `null=True`, so the
database enforces NOT NULL — an in-memory instance may still have it unset
before a successful save, which `Option` captures. -/
structure Wordform where
  id : Nat
  text : Str
  lexical_category : Str
  pos : Str
  analysis : Str
  is_lemma : Bool
  as_is : Bool
  lemma_id : Option Nat
deriving DecidableEq, Repr

/-- Django model equality compares primary keys, not fields. -/
instance : BEq Wordform := ⟨fun a b => a.id == b.id⟩

/-- The `Definition` model (`wordform` is the owning foreign key id). -/
structure Definition where
  id : Nat
  text : Str
  wordform : Nat
deriving DecidableEq, Repr

instance : BEq Definition := ⟨fun a b => a.id == b.id⟩

/-- The `EnglishKeyword` model (`lemma` is the owning foreign key id). -/
structure EnglishKeyword where
  id : Nat
  text : Str
  lemma_id : Nat
deriving DecidableEq, Repr

/-- The read-only wordform store (the database tables the search engine
reads). -/
structure Store where
  wordforms : List Wordform
  definitions : List Definition
  keywords : List EnglishKeyword
deriving Repr

def Store.byId (s : Store) (i : Nat) : Option Wordform :=
  s.wordforms.find? (fun wf => wf.id == i)

/-- `wf.definitions.all()`: the definition rows owned by wordform `i`. -/
def Store.defsOf (s : Store) (i : Nat) : List Definition :=
  s.definitions.filter (fun d => d.wordform == i)

/-- Attribute access `wf.lemma`: resolve the foreign key against the
store.  `none` models the situations where Django would raise (unset or
dangling foreign key). -/
def wfLemma (s : Store) (wf : Wordform) : Option Wordform :=
  wf.lemma_id.bind s.byId

/-- `CreeResult.normatized_cree : Union[Wordform, str]`. -/
inductive Matched where
  | wf : Wordform → Matched
  | raw : Str → Matched
deriving DecidableEq, Repr

/-- Python equality on `Union[Wordform, str]`: model equality (by pk) on
wordforms, string equality on strings, `False` across the union. -/
instance : BEq Matched :=
  ⟨fun a b =>
    match a, b with
    | .wf x, .wf y => x == y
    | .raw x, .raw y => x == y
    | _, _ => false⟩

/-- The `CreeResult` named tuple.  `resLemma` embeds the source field
`lemma` (a Lean keyword): the resolved `wf.lemma` foreign key (see
`wfLemma`). -/
structure CreeResult where
  analysis : Str
  normatized_cree : Matched
  resLemma : Option Wordform
deriving DecidableEq, Repr

/-- Named-tuple equality is component-wise (with Django pk equality on the
model components) — this is what Python `set` dedup uses. -/
instance : BEq CreeResult :=
  ⟨fun a b =>
    a.analysis == b.analysis && a.normatized_cree == b.normatized_cree &&
      a.resLemma == b.resLemma⟩

/-- `CreeResult.normatized_cree_text`. -/
def CreeResult.normatized_cree_text (c : CreeResult) : Str :=
  match c.normatized_cree with
  | .wf w => w.text
  | .raw r => r

/-- The `EnglishResult` named tuple.  The code constructs it as
`EnglishResult(MatchedEnglish(user_query), wordform, Lemma(wordform))`, so
`resLemma` (source field `lemma`, a Lean keyword) is the matched wordform
itself (never null). -/
structure EnglishResult where
  matched_english : Str
  matched_cree : Wordform
  resLemma : Wordform
deriving DecidableEq, Repr

instance : BEq EnglishResult :=
  ⟨fun a b =>
    a.matched_english == b.matched_english && a.matched_cree == b.matched_cree &&
      a.resLemma == b.resLemma⟩

/-- The `SearchResult` attrs class (frozen, so hashable; equality is by
full field identity, with Django pk equality on the nested models). -/
structure SearchResult where
  matched_text : Str
  matched_by : String
  is_head : Bool
  lemma_wordform : Option Wordform
  linguistic_breakdown_head : List Str
  linguistic_breakdown_tail : List Str
  definitions : List Definition
deriving DecidableEq, Repr

instance : BEq SearchResult :=
  ⟨fun a b =>
    a.matched_text == b.matched_text && a.matched_by == b.matched_by &&
      a.is_head == b.is_head && a.lemma_wordform == b.lemma_wordform &&
      a.linguistic_breakdown_head == b.linguistic_breakdown_head &&
      a.linguistic_breakdown_tail == b.linguistic_breakdown_tail &&
      a.definitions == b.definitions⟩

/-- Errors Django raises inside the embedded code: `FieldError` when a
query references a field that does not exist on the model, and
`IntegrityError` when an INSERT violates the NOT NULL / FOREIGN KEY
constraints of the `lemma` column. -/
inductive DjangoError where
  | fieldError
  | integrityError
deriving DecidableEq, Repr

/- ------------------------------------------------------------------ -/
/- Python set semantics                                                -/
/- ------------------------------------------------------------------ -/

/-- `set.add`: membership is decided by (Python) equality; iteration
order of the embedded set is its insertion order. -/
def setInsert [BEq α] (x : α) (l : List α) : List α :=
  if l.contains x then l else l ++ [x]

/- ------------------------------------------------------------------ -/
/- apps/morphodict/apps.py : initialize_affix_search + AffixSearcher   -/
/- ------------------------------------------------------------------ -/

def hasStart (q e : Str) : Bool :=
  match q, e with
  | [], _ => true
  | _ :: _, [] => false
  | c :: q', d :: e' => c == d && hasStart q' e'

def hasEnd (q e : Str) : Bool := hasStart q.reverse e.reverse

/-- Modelled from the spec: the class `AffixSearcher`
(apps/morphodict/affix_search.py) is not part of the given sources — only
its builder and callers are.  Per spec §4.2 it is built once from
(search-key text, wordform id) pairs and exposes two lookups:
`search_by_prefix` returns the ids of all entries whose indexed text
starts with the query, `search_by_suffix` the ids of all entries whose
indexed text ends with the query (the internal trie is only an efficiency
device).  `byStart` and `byEnd` embed those two lookups. -/
structure AffixSearcher where
  entries : List (Str × Nat)
deriving Repr

/-- `AffixSearcher.search_by_prefix` (spec §4.2). -/
def AffixSearcher.byStart (a : AffixSearcher) (q : Str) : List Nat :=
  (a.entries.filter (fun e => hasStart q e.1)).map (fun e => e.2)

/-- `AffixSearcher.search_by_suffix` (spec §4.2). -/
def AffixSearcher.byEnd (a : AffixSearcher) (q : Str) : List Nat :=
  (a.entries.filter (fun e => hasEnd q e.1)).map (fun e => e.2)

/-- `cree_letter_to_ascii.get(c, c)` from `initialize_affix_search`: the
dict maps each ASCII letter to itself and the eight Cree accented vowels
to their plain counterparts; everything else (including U+0142 and U+00ED,
which the TODO in apps.py admits should be handled for Tsuut'ina) defaults
to itself. -/
def creeAsciiSub (c : Char) : Char :=
  if c == cAcirc || c == cAmacron then 'a'
  else if c == cEcirc || c == cEmacron then 'e'
  else if c == cImacron || c == cIcirc then 'i'
  else if c == cOcirc || c == cOmacron then 'o'
  else c

/-- `initialize_affix_search`: build the searcher over the lowered,
"diacritic-folded" text of all `is_lemma=True` wordforms. -/
def affixSearcherOf (s : Store) : AffixSearcher :=
  ⟨(s.wordforms.filter (fun wf => wf.is_lemma)).map
    (fun wf => ((pyLower wf.text).map creeAsciiSub, wf.id))⟩

/- ------------------------------------------------------------------ -/
/- apps/morphodict/models.py : fetch_lemma_by_user_query               -/
/- ------------------------------------------------------------------ -/

/-- The replaces in `fetch_lemma_by_user_query`: ā→â, ē→ê, ī→î, ō→ô. -/
def creeSub (c : Char) : Char :=
  if c == cAmacron then cAcirc else if c == cEmacron then cEcirc
  else if c == cImacron then cIcirc else if c == cOmacron then cOcirc
  else c

/-- The query normalization at the top of `fetch_lemma_by_user_query`:
strip, NFC, the four macron→circumflex replaces, lowercase. -/
def normQuery (q : Str) : Str :=
  pyLower ((pyNFC (pyStrip q)).map creeSub)

/-- The affix branch of `fetch_lemma_by_user_query`: union the
prefix/suffix id sets, fetch those wordforms from the store (in store
order), and add one `CreeResult(wf.analysis, wf, wf.lemma)` per wordform
to the (Python set of) results. -/
def affixCree (s : Store) (a : AffixSearcher) (uq : Str) : List CreeResult :=
  let ids := a.byStart uq ++ a.byEnd uq
  (s.wordforms.filter (fun wf => ids.contains wf.id)).foldl
    (fun acc wf => setInsert ⟨wf.analysis, .wf wf, wfLemma s wf⟩ acc) []

/-- The Cree-side result set of `fetch_lemma_by_user_query`: the affix
search runs only when `len(user_query) > settings.AFFIX_SEARCH_THRESHOLD`
(the threshold value lives in the Django settings, outside the given
sources, so it is a parameter `t` here); the FST branch contributes
nothing because `fst_analyses` is hardcoded to the empty set ("there is no
FST"). -/
def fetchCree (s : Store) (a : AffixSearcher) (t : Nat) (uq : Str) :
    List CreeResult :=
  if t < uq.length then affixCree s a uq else []

/-- `CreeAndEnglish`. -/
structure CreeAndEnglish where
  cree_results : List CreeResult
  english_results : List EnglishResult
deriving Repr

/-- `Wordform.fetch_lemma_by_user_query`.  When the normalized query
contains no space (`" " not in user_query`) the English branch runs: it
evaluates the `EnglishKeyword` lookup and the first wordform fetch, but
the subsequent closed-class fetch
`filter(Q(pos="IPV") | Q(full_lc="IPV") | Q(pos="PRON"), ...)` names the
field `full_lc`, which does not exist on this `Wordform` model (the field
is `lexical_category`), so Django raises `FieldError` at that `filter()`
call and the whole search aborts; the English results accumulated before
the raise are discarded with the stack frame.  Disambiguator kwargs are
modeled as absent (empty). -/
def fetch_lemma_by_user_query (s : Store) (a : AffixSearcher) (t : Nat)
    (q : Str) : Except DjangoError CreeAndEnglish :=
  let uq := normQuery q
  if uq.contains cSpace then
    .ok ⟨fetchCree s a t uq, []⟩
  else
    .error .fieldError

/- ------------------------------------------------------------------ -/
/- apps/morphodict/models.py : ranking and search                      -/
/- ------------------------------------------------------------------ -/

/-- `sort_search_result`: the ranking comparator.  The source is an
unimplemented stub that returns 0 ("does not matter") for every pair. -/
def sort_search_result (res_a res_b : SearchResult) (user_query : Str) : Int :=
  0

/-- `SortedSet.add` insertion position under `cmp_to_key`: insert before
the first element the new one compares strictly below (with the constant-0
comparator this is always the end, i.e. insertion order). -/
def insortRight (uq : Str) (x : SearchResult) : List SearchResult →
    List SearchResult
  | [] => [x]
  | y :: ys =>
    if sort_search_result x y uq < 0 then x :: y :: ys
    else y :: insortRight uq x ys

/-- `SortedSet.add`: a set, so an (attrs-)equal element is not added
twice. -/
def sortedSetAdd (uq : Str) (x : SearchResult) (l : List SearchResult) :
    List SearchResult :=
  if l.contains x then l else insortRight uq x l

/-- The body of the Cree loop in `Wordform.search`: one `SearchResult` per
`CreeResult`, with the matched text and definitions taken from the matched
value (the local `is_lemma` variable of the source is computed but never
used — `is_head` is the literal `True`). -/
def searchResultOfCree (s : Store) (c : CreeResult) : SearchResult :=
  let definitions :=
    match c.normatized_cree with
    | .wf w => s.defsOf w.id
    | .raw _ => []
  { matched_text := c.normatized_cree_text
    matched_by := "crk"
    is_head := true
    lemma_wordform := c.resLemma
    linguistic_breakdown_head := []
    linguistic_breakdown_tail := []
    definitions := definitions }

/-- The body of the English loop in `Wordform.search`. -/
def searchResultOfEnglish (s : Store) (e : EnglishResult) : SearchResult :=
  { matched_text := e.matched_cree.text
    matched_by := "eng"
    is_head := true
    lemma_wordform := wfLemma s e.matched_cree
    linguistic_breakdown_head := []
    linguistic_breakdown_tail := []
    definitions := s.defsOf e.matched_cree.id }

/-- The result assembly of `Wordform.search`: fill a
`SortedSet(key=sort_by_user_query(user_query))` from the Cree results and
then the English results. -/
def rankResults (s : Store) (cs : List CreeResult) (es : List EnglishResult)
    (uq : Str) : List SearchResult :=
  es.foldl (fun acc e => sortedSetAdd uq (searchResultOfEnglish s e) acc)
    (cs.foldl (fun acc c => sortedSetAdd uq (searchResultOfCree s c) acc) [])

/-- `Wordform.search`: resolve, then rank (the raw user query is the
comparator parameter). -/
def search (s : Store) (a : AffixSearcher) (t : Nat) (q : Str) :
    Except DjangoError (List SearchResult) :=
  match fetch_lemma_by_user_query s a t q with
  | .error e => .error e
  | .ok ce => .ok (rankResults s ce.cree_results ce.english_results q)

/- ------------------------------------------------------------------ -/
/- apps/morphodict/models.py : Wordform.save                           -/
/- ------------------------------------------------------------------ -/

/-- `Wordform.objects.aggregate(Max("id"))`. -/
def maxId (s : Store) : Option Nat :=
  s.wordforms.foldl
    (fun acc wf =>
      match acc with
      | none => some wf.id
      | some m => some (max m wf.id)) none

/-- `Wordform.save`: auto-increment the id, point `lemma` at itself when
`is_lemma` is set, then INSERT.  The INSERT fails with `IntegrityError`
when the NOT NULL / FOREIGN KEY constraints on the `lemma` column are
violated (the column is declared without `null=True` and references
`self`). -/
def saveWordform (s : Store) (wf : Wordform) : Except DjangoError Store :=
  let newId := match maxId s with | none => 0 | some m => m + 1
  let wf1 : Wordform := { wf with id := newId }
  let wf2 : Wordform := if wf1.is_lemma then { wf1 with lemma_id := some newId } else wf1
  let s' : Store := { s with wordforms := s.wordforms ++ [wf2] }
  match wf2.lemma_id with
  | none => .error .integrityError
  | some l => if (s'.byId l).isSome then .ok s' else .error .integrityError

/-- Database-level invariant of a store of saved rows: every wordform's
`lemma` column is non-null and references an existing row (enforced by the
NOT NULL and FOREIGN KEY constraints of the model declaration). -/
def storeInvB (s : Store) : Bool :=
  s.wordforms.all (fun wf =>
    match wf.lemma_id with
    | none => false
    | some l => (s.byId l).isSome)

/-- Python-set nodup: no later element is Python-equal to an earlier one. -/
def nodupPy [BEq α] (l : List α) : Prop :=
  List.Pairwise (fun a b => (b == a) = false) l

/- ------------------------------------------------------------------ -/
/- Orthography: alphabet characterization for to_search_form           -/
/- ------------------------------------------------------------------ -/

/-- The combining marks that take part in composition. -/
def isMark (c : Char) : Bool :=
  c == cComb300 || c == cComb301 || c == cComb302 || c == cComb304

/-- The alphabet the program works over: ASCII letters and digits, space
and tab, both apostrophes, ł (U+0142), ɫ (U+026B), and the fifteen
grave/acute/macron vowels used by the Tsuut'ina orthography.  (Bare
combining marks, and characters whose lowercase or compatibility
decomposition leaves this set, are outside the modeled alphabet.) -/
def safeChars : List Char :=
  ['a', 'b', 'c', 'd', 'e', 'f', 'g', 'h', 'i', 'j', 'k', 'l', 'm',
   'n', 'o', 'p', 'q', 'r', 's', 't', 'u', 'v', 'w', 'x', 'y', 'z',
   'A', 'B', 'C', 'D', 'E', 'F', 'G', 'H', 'I', 'J', 'K', 'L', 'M',
   'N', 'O', 'P', 'Q', 'R', 'S', 'T', 'U', 'V', 'W', 'X', 'Y', 'Z',
   '0', '1', '2', '3', '4', '5', '6', '7', '8', '9',
   cSpace, cTab, cApos, cRApos, cLstroke, cMtildeL,
   cAacute, cAgrave, cAmacron, cEacute, cEgrave, cEmacron,
   cIacute, cIgrave, cImacron, cOacute, cOgrave, cOmacron,
   cUacute, cUgrave, cUmacron]

/-- The lowercase closure of `safeChars`. -/
def safeLowerChars : List Char :=
  ['a', 'b', 'c', 'd', 'e', 'f', 'g', 'h', 'i', 'j', 'k', 'l', 'm',
   'n', 'o', 'p', 'q', 'r', 's', 't', 'u', 'v', 'w', 'x', 'y', 'z',
   '0', '1', '2', '3', '4', '5', '6', '7', '8', '9',
   cSpace, cTab, cApos, cRApos, cLstroke, cMtildeL,
   cAacute, cAgrave, cAmacron, cEacute, cEgrave, cEmacron,
   cIacute, cIgrave, cImacron, cOacute, cOgrave, cOmacron,
   cUacute, cUgrave, cUmacron]

/-- The characters `to_search_form` can emit on the modeled alphabet. -/
def outChars : List Char :=
  ['a', 'b', 'c', 'd', 'e', 'f', 'g', 'h', 'i', 'j', 'k', 'l', 'm',
   'n', 'o', 'p', 'q', 'r', 's', 't', 'u', 'v', 'w', 'x', 'y', 'z',
   '0', '1', '2', '3', '4', '5', '6', '7', '8', '9', cSpace, cTab]

/-- What `to_search_form` does to one (mark-free) character after NFC:
fold ɫ, decompose, drop apostrophes and grave/acute/macron, fold ł. -/
def gChar (c : Char) : Str := concatMap remChar (charNFKD (lsub c))

/- ------------------------------------------------------------------ -/
/- Concrete instances used by the claim theorems                       -/
/- ------------------------------------------------------------------ -/

def emptyStore : Store := ⟨[], [], []⟩

def emptyAffix : AffixSearcher := ⟨[]⟩

/-- The text "tłích'ā" (t, ł, í, c, h, apostrophe, ā). -/
def tlichaChars : Str := ['t', cLstroke, cIacute, 'c', 'h', cApos, cAmacron]

/-- The C1 scenario lemma: id 1, text "tłích'ā", analysis "tłích'ā+N",
is_lemma true. -/
def c1wf : Wordform :=
  { id := 1, text := tlichaChars, lexical_category := ofStr "N",
    pos := ofStr "N", analysis := tlichaChars ++ ['+', 'N'],
    is_lemma := true, as_is := false, lemma_id := some 1 }

/-- The C1 scenario definition "dog" for the lemma. -/
def c1def : Definition := { id := 1, text := ofStr "dog", wordform := 1 }

/-- The C1 scenario store: exactly the lemma "tłích'ā" with definition
"dog". -/
def c1Store : Store := { wordforms := [c1wf], definitions := [c1def], keywords := [] }

/-- The affix index built over the C1 scenario store (apps.py). -/
def c1Affix : AffixSearcher := affixSearcherOf c1Store

def c1Query : Str := ofStr "tlicha"

/-- A lemma with a definition, for the C2 counterexample. -/
def c2L : Wordform :=
  { id := 0, text := ofStr "nipaw", lexical_category := ofStr "VAI-1",
    pos := ofStr "V", analysis := ofStr "nipaw+V+AI", is_lemma := true,
    as_is := false, lemma_id := some 0 }

/-- A non-lemma inflection of `c2L` with no definitions of its own. -/
def c2W : Wordform :=
  { id := 1, text := ofStr "ninipan", lexical_category := ofStr "VAI-1",
    pos := ofStr "V", analysis := ofStr "nipaw+V+AI+1Sg", is_lemma := false,
    as_is := false, lemma_id := some 0 }

def c2Def : Definition := { id := 0, text := ofStr "s/he sleeps", wordform := 0 }

def c2Store : Store :=
  { wordforms := [c2L, c2W], definitions := [c2Def], keywords := [] }

/-- A `CreeResult` whose matched wordform is the inflection `c2W`, with
resolved lemma `c2L`. -/
def c2Res : CreeResult :=
  { analysis := ofStr "nipaw+V+AI+1Sg", normatized_cree := .wf c2W,
    resLemma := some c2L }

/-- A `CreeResult` whose matched value is a raw string (a generated form
not present in the store). -/
def c2Raw : CreeResult :=
  { analysis := ofStr "nipaw+V+AI+2Sg", normatized_cree := .raw (ofStr "kinipan"),
    resLemma := some c2L }

/-- Two distinct search results, for the comparator counterexample. -/
def r3a : SearchResult :=
  { matched_text := ofStr "a", matched_by := "crk", is_head := true,
    lemma_wordform := none, linguistic_breakdown_head := [],
    linguistic_breakdown_tail := [], definitions := [] }

def r3b : SearchResult :=
  { matched_text := ofStr "b", matched_by := "crk", is_head := true,
    lemma_wordform := none, linguistic_breakdown_head := [],
    linguistic_breakdown_tail := [], definitions := [] }

/-- A query with an interior tab: interior whitespace that is not the
space character. -/
def c6q : Str := ofStr "dog\tcat"

/-- A stored lemma whose text contains a space ("Words/phrases with
spaces ... are labeled as_is" — here used so that a whitespace-containing
query can reach the affix branch and return successfully). -/
def wAB : Wordform :=
  { id := 0, text := ofStr "ab cd", lexical_category := ofStr "N",
    pos := ofStr "N", analysis := ofStr "abx", is_lemma := true,
    as_is := false, lemma_id := some 0 }

def sAB : Store := { wordforms := [wAB], definitions := [], keywords := [] }

def abAffix : AffixSearcher := affixSearcherOf sAB

def abQuery : Str := ofStr "ab cd"

/-- The one `CreeResult` the affix branch produces for `abQuery` over
`sAB`. -/
def cAB : CreeResult := { analysis := ofStr "abx", normatized_cree := .wf wAB,
                          resLemma := some wAB }

def ceAB : CreeAndEnglish := { cree_results := [cAB], english_results := [] }

/-- The search result `search` produces for `abQuery` over `sAB`. -/
def rAB : SearchResult := searchResultOfCree sAB cAB

/-- An unsaved wordform with `is_lemma` set and no lemma id, for the save
witness. -/
def c9wf : Wordform :=
  { id := 77, text := ofStr "aa", lexical_category := [], pos := [],
    analysis := [], is_lemma := true, as_is := false, lemma_id := none }

/-- The C8 counterexample input: apostrophe, space, a, space,
apostrophe. -/
def c8q : Str := [cApos, cSpace, 'a', cSpace, cApos]

/-- The doctest input of orthography.py: "Tłítc'ā". -/
def w8 : Str := ['T', cLstroke, cIacute, 't', 'c', cApos, cAmacron]

def c9Saved : Wordform :=
  { id := 0, text := ofStr "aa", lexical_category := [], pos := [],
    analysis := [], is_lemma := true, as_is := false, lemma_id := some 0 }

def c9Store' : Store :=
  { wordforms := [c9Saved], definitions := [], keywords := [] }

/- ------------------------------------------------------------------ -/
/- Helper lemmas about the embedded container primitives               -/
/- ------------------------------------------------------------------ -/

theorem hl_contains_cons [BEq α] (b : α) (bs : List α) (x : α) :
    (b :: bs).contains x = (x == b || bs.contains x) := by
  simp only [List.contains, List.elem]
  cases x == b <;> simp

theorem hl_contains_false [BEq α] {l : List α} {x : α}
    (h : l.contains x = false) : ∀ a ∈ l, (x == a) = false := by
  induction l with
  | nil => intro a ha; cases ha
  | cons b bs ih =>
    intro a ha
    rw [hl_contains_cons, Bool.or_eq_false_iff] at h
    rcases List.mem_cons.mp ha with rfl | hmem
    · exact h.1
    · exact ih h.2 a hmem

theorem hl_mem_setInsert [BEq α] {x y : α} {l : List α}
    (h : x ∈ setInsert y l) : x = y ∨ x ∈ l := by
  unfold setInsert at h
  split at h
  · exact Or.inr h
  · rcases List.mem_append.mp h with h1 | h1
    · exact Or.inr h1
    · exact Or.inl (List.mem_singleton.mp h1)

theorem hl_mem_foldl_setInsert [BEq β] (h : α → β) :
    ∀ (l : List α) (acc : List β) (x : β),
      x ∈ l.foldl (fun a b => setInsert (h b) a) acc →
        x ∈ acc ∨ ∃ b ∈ l, x = h b := by
  intro l
  induction l with
  | nil => intro acc x hx; exact Or.inl hx
  | cons b bs ih =>
    intro acc x hx
    rcases ih (setInsert (h b) acc) x hx with h1 | h1
    · rcases hl_mem_setInsert h1 with h2 | h2
      · exact Or.inr ⟨b, List.mem_cons_self b bs, h2⟩
      · exact Or.inl h2
    · rcases h1 with ⟨c, hc, hxc⟩
      exact Or.inr ⟨c, List.mem_cons_of_mem b hc, hxc⟩

theorem hl_nodup_setInsert [BEq α] {l : List α} (x : α)
    (h : nodupPy l) : nodupPy (setInsert x l) := by
  unfold setInsert
  split
  · exact h
  · next hc =>
    refine List.pairwise_append.mpr ⟨h, List.pairwise_singleton _ _, ?_⟩
    intro a ha b hb
    rw [List.mem_singleton.mp hb]
    exact hl_contains_false (Bool.of_not_eq_true hc) a ha

theorem hl_nodup_foldl_setInsert [BEq β] (h : α → β) :
    ∀ (l : List α) (acc : List β), nodupPy acc →
      nodupPy (l.foldl (fun a b => setInsert (h b) a) acc) := by
  intro l
  induction l with
  | nil => intro acc hacc; exact hacc
  | cons b bs ih => intro acc hacc; exact ih _ (hl_nodup_setInsert _ hacc)

theorem hl_mem_insort {uq : Str} {x y : SearchResult} {l : List SearchResult}
    (h : y ∈ insortRight uq x l) : y = x ∨ y ∈ l := by
  induction l with
  | nil => exact Or.inl (List.mem_singleton.mp h)
  | cons b bs ih =>
    unfold insortRight at h
    split at h
    · rcases List.mem_cons.mp h with h1 | h1
      · exact Or.inl h1
      · exact Or.inr h1
    · rcases List.mem_cons.mp h with h1 | h1
      · exact Or.inr (h1 ▸ List.mem_cons_self b bs)
      · rcases ih h1 with h2 | h2
        · exact Or.inl h2
        · exact Or.inr (List.mem_cons_of_mem b h2)

theorem hl_mem_sortedSetAdd {uq : Str} {x y : SearchResult}
    {l : List SearchResult} (h : y ∈ sortedSetAdd uq x l) : y = x ∨ y ∈ l := by
  unfold sortedSetAdd at h
  split at h
  · exact Or.inr h
  · exact hl_mem_insort h

theorem hl_mem_foldl_sortedSetAdd (uq : Str) (h : α → SearchResult) :
    ∀ (l : List α) (acc : List SearchResult) (x : SearchResult),
      x ∈ l.foldl (fun a b => sortedSetAdd uq (h b) a) acc →
        x ∈ acc ∨ ∃ b ∈ l, x = h b := by
  intro l
  induction l with
  | nil => intro acc x hx; exact Or.inl hx
  | cons b bs ih =>
    intro acc x hx
    rcases ih (sortedSetAdd uq (h b) acc) x hx with h1 | h1
    · rcases hl_mem_sortedSetAdd h1 with h2 | h2
      · exact Or.inr ⟨b, List.mem_cons_self b bs, h2⟩
      · exact Or.inl h2
    · rcases h1 with ⟨c, hc, hxc⟩
      exact Or.inr ⟨c, List.mem_cons_of_mem b hc, hxc⟩

/- ------------------------------------------------------------------ -/
/- Helper lemmas about fetch / search                                  -/
/- ------------------------------------------------------------------ -/

theorem hl_fetch_ok {s : Store} {a : AffixSearcher} {t : Nat} {q : Str}
    {ce : CreeAndEnglish} (h : fetch_lemma_by_user_query s a t q = .ok ce) :
    ce.cree_results = fetchCree s a t (normQuery q) ∧ ce.english_results = [] := by
  simp only [fetch_lemma_by_user_query] at h
  split at h
  · cases h
    exact ⟨rfl, rfl⟩
  · cases h

theorem hl_mem_fetchCree {s : Store} {a : AffixSearcher} {t : Nat} {uq : Str}
    {c : CreeResult} (h : c ∈ fetchCree s a t uq) :
    ∃ wf ∈ s.wordforms, c = ⟨wf.analysis, .wf wf, wfLemma s wf⟩ := by
  unfold fetchCree at h
  split at h
  · unfold affixCree at h
    rcases hl_mem_foldl_setInsert _ _ _ _ h with h1 | h1
    · cases h1
    · rcases h1 with ⟨wf, hwf, hc⟩
      exact ⟨wf, (List.mem_filter.mp hwf).1, hc⟩
  · cases h

theorem hl_mem_rank_cree {s : Store} {a : AffixSearcher} {t : Nat} {q : Str}
    {ce : CreeAndEnglish} {x : SearchResult}
    (hfetch : fetch_lemma_by_user_query s a t q = .ok ce)
    (hx : x ∈ rankResults s ce.cree_results ce.english_results q) :
    ∃ c ∈ ce.cree_results, x = searchResultOfCree s c := by
  rcases hl_fetch_ok hfetch with ⟨_, hes⟩
  rw [hes] at hx
  unfold rankResults at hx
  simp only [List.foldl_nil] at hx
  rcases hl_mem_foldl_sortedSetAdd q _ _ _ _ hx with h1 | h1
  · cases h1
  · exact h1

theorem hl_lower_safe : ∀ c ∈ safeChars, charLower c ∈ safeLowerChars := by
  decide

theorem hl_safeLower_noMark : ∀ c ∈ safeLowerChars, isMark c = false := by
  decide

theorem hl_gChar_out : ∀ c ∈ safeLowerChars, ∀ d ∈ gChar c, d ∈ outChars := by
  decide

theorem hl_out_fixed :
    ∀ c ∈ outChars,
      charLower c = c ∧ isMark c = false ∧ lsub c = c ∧
        charNFKD c = [c] ∧ remChar c = [c] := by
  decide

theorem hl_composePair_noMark {c d : Char} (h : isMark d = false) :
    composePair c d = none := by
  simp only [isMark, Bool.or_eq_false_iff] at h
  simp only [composePair, h.1.1.1, h.1.1.2, h.1.2, h.2]
  simp

theorem hl_nfcGo_noMark (c : Char) (rest : Str)
    (h : ∀ d ∈ rest, isMark d = false) : nfcGo c rest = c :: rest := by
  induction rest generalizing c with
  | nil => rfl
  | cons d rest ih =>
    unfold nfcGo
    rw [hl_composePair_noMark (h d (List.mem_cons_self d rest))]
    rw [ih d (fun e he => h e (List.mem_cons_of_mem d he))]

theorem hl_pyNFC_noMark (s : Str) (h : ∀ c ∈ s, isMark c = false) :
    pyNFC s = s := by
  cases s with
  | nil => rfl
  | cons c rest =>
    unfold pyNFC
    exact hl_nfcGo_noMark c rest (fun d hd => h d (List.mem_cons_of_mem c hd))

theorem hl_mapIdOn (h : Char → Char) (l : Str) (hid : ∀ c ∈ l, h c = c) :
    l.map h = l := by
  induction l with
  | nil => rfl
  | cons c cs ih =>
    simp only [List.map_cons, hid c (List.mem_cons_self c cs),
      ih (fun d hd => hid d (List.mem_cons_of_mem c hd))]

theorem hl_concatMap_singleton (h : Char → Str) (l : Str)
    (hid : ∀ c ∈ l, h c = [c]) : concatMap h l = l := by
  induction l with
  | nil => rfl
  | cons c cs ih =>
    unfold concatMap
    rw [hid c (List.mem_cons_self c cs),
      ih (fun d hd => hid d (List.mem_cons_of_mem c hd))]
    rfl

theorem hl_concatMap_map (h : β → List γ) (f : α → β) (l : List α) :
    concatMap h (l.map f) = concatMap (fun c => h (f c)) l := by
  induction l with
  | nil => rfl
  | cons c cs ih => simp only [List.map_cons, concatMap, ih]

theorem hl_concatMap_append (h : α → List β) (l1 l2 : List α) :
    concatMap h (l1 ++ l2) = concatMap h l1 ++ concatMap h l2 := by
  induction l1 with
  | nil => rfl
  | cons c cs ih =>
    show h c ++ concatMap h (cs ++ l2) = h c ++ concatMap h cs ++ concatMap h l2
    rw [ih, List.append_assoc]

theorem hl_concatMap_concatMap (h1 : α → List β) (h2 : β → List γ)
    (l : List α) :
    concatMap h2 (concatMap h1 l) = concatMap (fun c => concatMap h2 (h1 c)) l := by
  induction l with
  | nil => rfl
  | cons c cs ih => simp only [concatMap, hl_concatMap_append, ih]

theorem hl_mem_concatMap (h : α → List β) (l : List α) (x : β)
    (hx : x ∈ concatMap h l) : ∃ c ∈ l, x ∈ h c := by
  induction l with
  | nil => cases hx
  | cons c cs ih =>
    rcases List.mem_append.mp hx with h1 | h1
    · exact ⟨c, List.mem_cons_self c cs, h1⟩
    · rcases ih h1 with ⟨d, hd, hxd⟩
      exact ⟨d, List.mem_cons_of_mem c hd, hxd⟩

theorem hl_mem_dropWhile (p : Char → Bool) (l : Str) (x : Char)
    (h : x ∈ l.dropWhile p) : x ∈ l := by
  induction l with
  | nil => exact h
  | cons a as ih =>
    rw [List.dropWhile] at h
    split at h
    · exact List.mem_cons_of_mem a (ih h)
    · exact h

theorem hl_mem_pyStrip (l : Str) (x : Char) (h : x ∈ pyStrip l) : x ∈ l := by
  unfold pyStrip at h
  rw [List.mem_reverse] at h
  have h1 := hl_mem_dropWhile _ _ _ h
  rw [List.mem_reverse] at h1
  exact hl_mem_dropWhile _ _ _ h1

/-- On the modeled alphabet, `to_search_form` is the per-character map
`gChar` applied to the stripped, lowercased input (the first NFC pass is
the identity because the alphabet contains no bare combining marks). -/
theorem hl_tsf_eq_concatMap (s : Str) (hs : ∀ c ∈ s, c ∈ safeChars) :
    to_search_form s = concatMap gChar (pyStrip (pyLower s)) := by
  have hsafeLower : ∀ c ∈ pyStrip (pyLower s), c ∈ safeLowerChars := by
    intro c hc
    have h1 := hl_mem_pyStrip _ _ hc
    rcases List.mem_map.mp h1 with ⟨c0, hc0, rfl⟩
    exact hl_lower_safe c0 (hs c0 hc0)
  have hnm : ∀ c ∈ pyStrip (pyLower s), isMark c = false := fun c hc =>
    hl_safeLower_noMark c (hsafeLower c hc)
  show concatMap remChar (pyNFKD ((pyNFC (pyStrip (pyLower s))).map lsub)) = _
  rw [hl_pyNFC_noMark _ hnm]
  unfold pyNFKD
  rw [hl_concatMap_map, hl_concatMap_concatMap]
  rfl

/-- On the modeled alphabet, every character of a search form is a plain
lowercase ASCII letter, a digit, a space or a tab. -/
theorem hl_tsf_out (s : Str) (hs : ∀ c ∈ s, c ∈ safeChars) :
    ∀ d ∈ to_search_form s, d ∈ outChars := by
  intro d hd
  rw [hl_tsf_eq_concatMap s hs] at hd
  rcases hl_mem_concatMap _ _ _ hd with ⟨c, hc, hdc⟩
  have hsafeLower : c ∈ safeLowerChars := by
    have h1 := hl_mem_pyStrip _ _ hc
    rcases List.mem_map.mp h1 with ⟨c0, hc0, rfl⟩
    exact hl_lower_safe c0 (hs c0 hc0)
  exact hl_gChar_out c hsafeLower d hdc

/- ------------------------------------------------------------------ -/
/- Claim theorems                                                      -/
/- ------------------------------------------------------------------ -/

/-- C8, counterexample: `to_search_form` is not idempotent for every
string.  On the plain-ASCII input apostrophe-space-a-space-apostrophe the
first pass strips nothing (the ends are apostrophes) and then deletes the
apostrophes, exposing boundary whitespace; the second pass strips it, so
the results differ (" a " versus "a"). -/
theorem c8_not_idempotent_counterexample :
    to_search_form c8q = [cSpace, 'a', cSpace] ∧
      to_search_form (to_search_form c8q) = ['a'] ∧
      to_search_form (to_search_form c8q) ≠ to_search_form c8q :=
  ⟨rfl, rfl, by decide⟩

/-- C8 (amended): on every string over the program's alphabet
(`safeChars`) whose search form carries no leading or trailing
whitespace — in particular on every query without whitespace —
`to_search_form` is idempotent. -/
theorem c8_search_key_idempotent (s : Str)
    (hsafe : ∀ c ∈ s, c ∈ safeChars)
    (hstrip : pyStrip (to_search_form s) = to_search_form s) :
    to_search_form (to_search_form s) = to_search_form s := by
  have hout : ∀ d ∈ to_search_form s, d ∈ outChars := hl_tsf_out s hsafe
  have hlow : pyLower (to_search_form s) = to_search_form s :=
    hl_mapIdOn _ _ (fun c hc => (hl_out_fixed c (hout c hc)).1)
  show concatMap remChar
      (pyNFKD ((pyNFC (pyStrip (pyLower (to_search_form s)))).map lsub)) = _
  rw [hlow, hstrip]
  rw [hl_pyNFC_noMark _ (fun c hc => (hl_out_fixed c (hout c hc)).2.1)]
  rw [hl_mapIdOn lsub _ (fun c hc => (hl_out_fixed c (hout c hc)).2.2.1)]
  unfold pyNFKD
  rw [hl_concatMap_singleton _ _ (fun c hc => (hl_out_fixed c (hout c hc)).2.2.2.1)]
  exact hl_concatMap_singleton _ _ (fun c hc => (hl_out_fixed c (hout c hc)).2.2.2.2)

/-- Witness for C8's amended theorem at the doctest input "Tłítc'ā"
(whose search form is "tlitca", as the orthography.py doctest states). -/
theorem c8_search_key_idempotent_witness :
    (∀ c ∈ w8, c ∈ safeChars) ∧
      pyStrip (to_search_form w8) = to_search_form w8 ∧
      to_search_form w8 = ofStr "tlitca" ∧
      to_search_form (to_search_form w8) = to_search_form w8 :=
  ⟨by decide, by decide, by decide,
    c8_search_key_idempotent w8 (by decide) (by decide)⟩

/-- C1: evaluation of the end-to-end scenario.  With the store containing
exactly the lemma "tłích'ā" (id 1, analysis "tłích'ā+N", is_lemma true,
definition "dog") and the affix index built over it, `search("tlicha")`
does not return one SearchResult for "tłích'ā": it aborts with a
`FieldError` (the single-word English branch names the nonexistent field
`full_lc`), for every threshold value; and independently of that failure,
the affix index — whose folding table leaves ł, í and the apostrophe
untouched (its own TODO says "use Tsuut'ina orthography instead") —
matches nothing for "tlicha" against the indexed "tłích'a", so the Cree
result set would be empty as well. -/
theorem c1_scenario_eval :
    (∀ t : Nat, search c1Store c1Affix t c1Query = .error .fieldError) ∧
      c1Affix.byStart (normQuery c1Query) = [] ∧
      c1Affix.byEnd (normQuery c1Query) = [] ∧
      (∀ t : Nat, fetchCree c1Store c1Affix t (normQuery c1Query) = []) := by
  refine ⟨fun t => rfl, by decide, by decide, fun t => ?_⟩
  unfold fetchCree
  split
  · decide
  · rfl

/-- C3, counterexample: the ranking comparator `sort_search_result` is
not a strict total order: it compares the two distinct results `r3a` and
`r3b` as equal in both directions (the stub returns 0 for every pair), so
distinct elements are ordered in neither direction and totality fails. -/
theorem c3_not_total_counterexample :
    r3a ≠ r3b ∧ sort_search_result r3a r3b (ofStr "q") = 0 ∧
      sort_search_result r3b r3a (ofStr "q") = 0 :=
  ⟨by decide, rfl, rfl⟩

/-- C3 (amended): the ranking comparator is the constant stub returning 0
(comparing every pair equal — hence trivially antisymmetric and
transitive, but not total), and ranking is deterministic: `rankResults`
is a pure function, so identical (cree set, english set, query) inputs
give element-wise identical output order. -/
theorem c3_comparator_stub_and_deterministic :
    (∀ (a b : SearchResult) (uq : Str), sort_search_result a b uq = 0) ∧
      (∀ (s : Store) (cs : List CreeResult) (es : List EnglishResult)
        (uq : Str), rankResults s cs es uq = rankResults s cs es uq) :=
  ⟨fun _ _ _ => rfl, fun _ _ _ _ => rfl⟩

/-- C4: evaluation at a failing input.  For the single-word query
"around" — for every store (in particular one holding an `as_is` preverb
whose `lexical_category` is "IPV" and a matching English keyword), every
affix searcher and every threshold — the resolver does not emit the
closed-class wordforms: building the closed-class filter
`Q(pos="IPV") | Q(full_lc="IPV") | Q(pos="PRON")` raises `FieldError`
(this `Wordform` model has `lexical_category`, not `full_lc`), aborting
the whole search. -/
theorem c4_closed_class_field_error (s : Store) (a : AffixSearcher)
    (t : Nat) :
    fetch_lemma_by_user_query s a t (ofStr "around") = .error .fieldError :=
  rfl

/-- C5: evaluation at a failing input.  The query "ab" (length 2, at or
below any threshold t ≥ 2) contributes no affix results — the affix index
is not consulted — and there is no exact-analysis or keyword match; but
`search` does not return an empty ordered sequence: being a single word,
the query enters the English branch and aborts with `FieldError`. -/
theorem c5_short_query_error (s : Store) (a : AffixSearcher) (t : Nat)
    (ht : 2 ≤ t) :
    search s a t (ofStr "ab") = .error .fieldError ∧
      fetchCree s a t (normQuery (ofStr "ab")) = [] := by
  refine ⟨rfl, ?_⟩
  have hn : normQuery (ofStr "ab") = ofStr "ab" := rfl
  rw [hn]
  unfold fetchCree
  rw [if_neg]
  intro hlt
  have : t < 2 := hlt
  omega

/-- Witness for C5 at threshold 4 and the empty store. -/
theorem c5_short_query_error_witness :
    2 ≤ 4 ∧
      (search emptyStore emptyAffix 4 (ofStr "ab") = .error .fieldError ∧
        fetchCree emptyStore emptyAffix 4 (normQuery (ofStr "ab")) = []) :=
  ⟨by decide, c5_short_query_error emptyStore emptyAffix 4 (by decide)⟩

/-- C6, counterexample: the query "dog" + tab + "cat" contains interior
whitespace (the tab, a whitespace character that is neither its first nor
its last character), yet the English-keyword branch runs for it — the
branch condition only tests for the space character U+0020 — as witnessed
by the `FieldError` raised inside that branch. -/
theorem c6_tab_counterexample :
    isPyWs cTab = true ∧ cTab ∈ normQuery c6q ∧
      (normQuery c6q).head? = some 'd' ∧
      (normQuery c6q).getLast? = some 't' ∧
      fetch_lemma_by_user_query emptyStore emptyAffix 4 c6q =
        .error .fieldError :=
  ⟨by decide, by decide, by decide, by decide, rfl⟩

/-- C6 (amended): the English-keyword branch of the resolver runs exactly
when the normalized query contains no space character U+0020 (not: no
whitespace).  When a space is present the branch is skipped and the
resolver returns the Cree results with an empty English set; when no
space is present the branch runs (and, as it stands, aborts with
`FieldError` at the closed-class filter). -/
theorem c6_english_gating_by_space (s : Store) (a : AffixSearcher) (t : Nat)
    (q : Str) :
    ((normQuery q).contains cSpace = true →
      fetch_lemma_by_user_query s a t q =
        .ok ⟨fetchCree s a t (normQuery q), []⟩) ∧
    ((normQuery q).contains cSpace = false →
      fetch_lemma_by_user_query s a t q = .error .fieldError) := by
  constructor
  · intro h
    have h' : cSpace ∈ normQuery q := by simpa using h
    simp [fetch_lemma_by_user_query, h']
  · intro h
    have h' : cSpace ∉ normQuery q := by simpa using h
    simp [fetch_lemma_by_user_query, h']

/-- Witness for C6: "dog cat" skips the English branch (empty English
results, no error); "dog" triggers it. -/
theorem c6_english_gating_by_space_witness :
    fetch_lemma_by_user_query emptyStore emptyAffix 4 (ofStr "dog cat") =
      .ok ⟨fetchCree emptyStore emptyAffix 4 (normQuery (ofStr "dog cat")), []⟩ ∧
    fetch_lemma_by_user_query emptyStore emptyAffix 4 (ofStr "dog") =
      .error .fieldError :=
  ⟨(c6_english_gating_by_space emptyStore emptyAffix 4 (ofStr "dog cat")).1
      (by decide),
    (c6_english_gating_by_space emptyStore emptyAffix 4 (ofStr "dog")).2
      (by decide)⟩

/-- C2, counterexample: the definitions of a SearchResult are taken from
the matched wordform, not from the resolved lemma.  For the CreeResult
matching the stored inflection `c2W` (resolved lemma `c2L`, which owns
the definition `c2Def`), the produced SearchResult carries the empty
definition tuple, not the lemma's tuple. -/
theorem c2_definitions_counterexample :
    (searchResultOfCree c2Store c2Res).definitions = [] ∧
      c2Res.resLemma = some c2L ∧
      c2Store.defsOf c2L.id = [c2Def] ∧
      (searchResultOfCree c2Store c2Res).definitions ≠
        c2Store.defsOf c2L.id :=
  ⟨rfl, rfl, rfl, by decide⟩

/-- C2 (amended): every SearchResult built from a CreeResult has
`matched_by` the target-language tag, `is_head` true, `matched_text` the
stored wordform's text when the matched value is a stored wordform and
the raw string otherwise, `lemma_wordform` the result's lemma, and
`definitions` the matched wordform's own definition tuple (the empty
tuple when the matched value is a raw string); and every result a
successful `search` returns is such a conversion. -/
theorem c2_cree_conversion :
    (∀ (s : Store) (c : CreeResult),
      (searchResultOfCree s c).matched_by = "crk" ∧
        (searchResultOfCree s c).is_head = true ∧
        (searchResultOfCree s c).matched_text = c.normatized_cree_text ∧
        (searchResultOfCree s c).lemma_wordform = c.resLemma) ∧
    (∀ (s : Store) (c : CreeResult) (w : Wordform),
      c.normatized_cree = .wf w →
        (searchResultOfCree s c).matched_text = w.text ∧
          (searchResultOfCree s c).definitions = s.defsOf w.id) ∧
    (∀ (s : Store) (c : CreeResult) (r : Str),
      c.normatized_cree = .raw r →
        (searchResultOfCree s c).matched_text = r ∧
          (searchResultOfCree s c).definitions = []) ∧
    (∀ (s : Store) (a : AffixSearcher) (t : Nat) (q : Str)
      (rs : List SearchResult), search s a t q = .ok rs →
        ∀ x ∈ rs, ∃ c, x = searchResultOfCree s c) := by
  refine ⟨fun s c => ⟨rfl, rfl, rfl, rfl⟩, ?_, ?_, ?_⟩
  · intro s c w h
    obtain ⟨an, nc, lm⟩ := c
    cases h
    exact ⟨rfl, rfl⟩
  · intro s c r h
    obtain ⟨an, nc, lm⟩ := c
    cases h
    exact ⟨rfl, rfl⟩
  · intro s a t q rs hs x hx
    unfold search at hs
    split at hs
    · cases hs
    · next ce hfetch =>
      cases hs
      rcases hl_mem_rank_cree hfetch hx with ⟨c, _, hxc⟩
      exact ⟨c, hxc⟩

/-- Witness for C2's amended theorem: the wordform case at `c2Res`, the
raw case at `c2Raw`, and the search-output case on the store `sAB` with
query "ab cd". -/
theorem c2_cree_conversion_witness :
    ((searchResultOfCree c2Store c2Res).matched_text = c2W.text ∧
      (searchResultOfCree c2Store c2Res).definitions = c2Store.defsOf c2W.id) ∧
    ((searchResultOfCree c2Store c2Raw).matched_text = ofStr "kinipan" ∧
      (searchResultOfCree c2Store c2Raw).definitions = []) ∧
    (∃ c, rAB = searchResultOfCree sAB c) :=
  ⟨c2_cree_conversion.2.1 c2Store c2Res c2W rfl,
    c2_cree_conversion.2.2.1 c2Store c2Raw (ofStr "kinipan") rfl,
    c2_cree_conversion.2.2.2 sAB abAffix 3 abQuery [rAB] rfl rAB
      (List.mem_singleton.mpr rfl)⟩

/-- C7: deduplication of the resolver's result sets is by full tuple
identity (Python set semantics over the named tuples, with Django pk
equality on the model components): whenever the resolver returns
successfully, neither result set contains two equal triples.  (The
specific two-analyses scenario of the claim is vacuous in this code:
`fst_analyses` is hardcoded to the empty set — "there is no FST" — so the
exact-analysis branch never produces anything; the dedup property is
established for everything the resolver does produce.) -/
theorem c7_result_sets_nodup (s : Store) (a : AffixSearcher) (t : Nat)
    (q : Str) (ce : CreeAndEnglish)
    (h : fetch_lemma_by_user_query s a t q = .ok ce) :
    nodupPy ce.cree_results ∧ nodupPy ce.english_results := by
  rcases hl_fetch_ok h with ⟨hcs, hes⟩
  constructor
  · rw [hcs]
    unfold fetchCree
    split
    · exact hl_nodup_foldl_setInsert _ _ _ List.Pairwise.nil
    · exact List.Pairwise.nil
  · rw [hes]
    exact List.Pairwise.nil

/-- Witness for C7 on the store `sAB` with query "ab cd" (one affix
match). -/
theorem c7_result_sets_nodup_witness :
    fetch_lemma_by_user_query sAB abAffix 3 abQuery = .ok ceAB ∧
      (nodupPy ceAB.cree_results ∧ nodupPy ceAB.english_results) :=
  ⟨rfl, c7_result_sets_nodup sAB abAffix 3 abQuery ceAB rfl⟩

/-- C9: the lemma reference is never null.  (1) Every successfully saved
wordform row has a non-null `lemma` foreign key, and when `is_lemma` is
set the key points at the row itself (`save` infers it).  (2) Over a
store satisfying the database constraints (`storeInvB`: every row's
`lemma` is non-null and resolvable), every triple in the Cree result set
the resolver returns has a resolvable (non-null) lemma; the English
result set is empty (its triples carry wordforms by construction, so a
null lemma cannot occur there either). -/
theorem c9_lemma_never_null :
    (∀ (s : Store) (wf : Wordform) (s' : Store),
      saveWordform s wf = .ok s' →
        ∃ w, s'.wordforms = s.wordforms ++ [w] ∧
          w.lemma_id.isSome = true ∧
          (wf.is_lemma = true → w.lemma_id = some w.id)) ∧
    (∀ (s : Store) (a : AffixSearcher) (t : Nat) (q : Str)
      (ce : CreeAndEnglish), storeInvB s = true →
        fetch_lemma_by_user_query s a t q = .ok ce →
          (∀ c ∈ ce.cree_results, c.resLemma.isSome = true) ∧
            ce.english_results = []) := by
  constructor
  · intro s wf s' hsave
    simp only [saveWordform] at hsave
    cases hil : wf.is_lemma with
    | true =>
      simp only [hil, eq_self_iff_true, if_true] at hsave
      split at hsave
      · cases hsave
        exact ⟨_, rfl, rfl, fun _ => rfl⟩
      · cases hsave
    | false =>
      simp only [hil, Bool.false_eq_true, if_false] at hsave
      split at hsave
      · cases hsave
      · next l hl =>
        split at hsave
        · cases hsave
          refine ⟨_, rfl, ?_, fun hil2 => ?_⟩
          · show wf.lemma_id.isSome = true
            rw [hl]
            rfl
          · cases hil2
        · cases hsave
  · intro s a t q ce hinv hfetch
    rcases hl_fetch_ok hfetch with ⟨hcs, hes⟩
    refine ⟨?_, hes⟩
    intro c hc
    rw [hcs] at hc
    rcases hl_mem_fetchCree hc with ⟨wf, hwf, rfl⟩
    unfold storeInvB at hinv
    have hp := List.all_eq_true.mp hinv wf hwf
    show (wfLemma s wf).isSome = true
    unfold wfLemma
    cases hwl : wf.lemma_id with
    | none => rw [hwl] at hp; cases hp
    | some l =>
      rw [hwl] at hp
      simpa using hp

/-- Witness for C9: saving `c9wf` (is_lemma, no preset key) into the
empty store yields a self-referencing row, and on the well-formed store
`sAB` the resolver's Cree triples all carry a resolvable lemma. -/
theorem c9_lemma_never_null_witness :
    (∃ w, c9Store'.wordforms = emptyStore.wordforms ++ [w] ∧
      w.lemma_id.isSome = true ∧
      (c9wf.is_lemma = true → w.lemma_id = some w.id)) ∧
    storeInvB sAB = true ∧
    ((∀ c ∈ ceAB.cree_results, c.resLemma.isSome = true) ∧
      ceAB.english_results = []) :=
  ⟨c9_lemma_never_null.1 emptyStore c9wf c9Store' rfl, by decide,
    c9_lemma_never_null.2 sAB abAffix 3 abQuery ceAB (by decide) rfl⟩

/-- C10: every SearchResult `Wordform.search` produces — on the Cree loop
and on the English loop, both of which construct the result with the
literals `is_head=True`, `linguistic_breakdown_head=()` and
`linguistic_breakdown_tail=()` — has `is_head` true and empty breakdown
tuples; consequently so does every element of a successful search's
output. -/
theorem c10_is_head_and_empty_breakdowns :
    (∀ (s : Store) (c : CreeResult),
      (searchResultOfCree s c).is_head = true ∧
        (searchResultOfCree s c).linguistic_breakdown_head = [] ∧
        (searchResultOfCree s c).linguistic_breakdown_tail = []) ∧
    (∀ (s : Store) (e : EnglishResult),
      (searchResultOfEnglish s e).is_head = true ∧
        (searchResultOfEnglish s e).linguistic_breakdown_head = [] ∧
        (searchResultOfEnglish s e).linguistic_breakdown_tail = []) ∧
    (∀ (s : Store) (a : AffixSearcher) (t : Nat) (q : Str)
      (rs : List SearchResult), search s a t q = .ok rs →
        ∀ x ∈ rs, x.is_head = true ∧
          x.linguistic_breakdown_head = [] ∧
          x.linguistic_breakdown_tail = []) := by
  refine ⟨fun s c => ⟨rfl, rfl, rfl⟩, fun s e => ⟨rfl, rfl, rfl⟩, ?_⟩
  intro s a t q rs hs x hx
  unfold search at hs
  split at hs
  · cases hs
  · next ce hfetch =>
    cases hs
    rcases hl_mem_rank_cree hfetch hx with ⟨c, _, rfl⟩
    exact ⟨rfl, rfl, rfl⟩

/-- Witness for C10 on the store `sAB` with query "ab cd", whose search
succeeds with the single result `rAB`. -/
theorem c10_is_head_and_empty_breakdowns_witness :
    search sAB abAffix 3 abQuery = .ok [rAB] ∧
      (rAB.is_head = true ∧ rAB.linguistic_breakdown_head = [] ∧
        rAB.linguistic_breakdown_tail = []) :=
  ⟨rfl, c10_is_head_and_empty_breakdowns.2.2 sAB abAffix 3 abQuery [rAB] rfl
    rAB (List.mem_singleton.mpr rfl)⟩
